import Mathlib

/-!
Verification of the session-correlation and background-task subsystem of the
Minecraft-Robot-C2 console (`src/main.ts`).

The program is a single-threaded Node.js event loop.  We embed it as a
deterministic small-step transition system: the global mutable state of
`main.ts` (`turtles`, `active`, each turtle's `status`, the detached `repeat`
tasks, and the interactive command loop's continuation) becomes a state
record `St`, and every event-loop event (a websocket connection handshake, a
`close`/`error`/`message` event on a connection, or a line of operator input)
becomes a labelled step.  Code between two `await` suspension points runs
atomically in the real event loop, so each such synchronous segment is one
transition of the model.  Each transition also emits the list of observable
actions it performs on connections (`send`, registering a `getReply` waiter,
resolving a waiter), in the order the code performs them.

The listener mechanics of `getReply` itself (three one-shot callbacks on the
websocket, each unregistering its two siblings when it fires) are embedded
separately and exactly, as a tiny state machine over the listener flags.
-/

namespace MRC2

/-- `TurtleStatus` from `main.ts`. -/
inductive TurtleStatus
  | idle
  | busy
deriving DecidableEq, Repr

/-- A `Turtle` object as the rest of the program sees it: its (immutable)
name and the identity of its websocket connection.  The mutable `status`
field lives in a shared heap (`St.stat`) keyed by connection id, because in
the source a single `Turtle` object is aliased by the registry array, the
`active` variable and any running task, and a status write through one alias
is visible through all of them. -/
structure TObj where
  conn : Nat
  name : String
deriving DecidableEq, Repr

/-- The state of one detached `repeat` background task, as left at its
`await getReply(t)` suspension point: the turtle it was assigned, the number
of loop iterations still to run after the currently awaited reply, and the
command string it sends each iteration. -/
structure Task where
  t : TObj
  remaining : Nat
  cmd : String
deriving DecidableEq, Repr

/-- The interactive command loop's continuation: either it is (about to be)
blocked on `io.question` reading the next line, or it is suspended at the
`await getReply()` inside the inline movement loop (`count <= 10` branch),
holding the connection the current waiter is registered on, the command
string being repeated, and the iterations left after the awaited reply. -/
inductive LoopSt
  | atPrompt
  | inlineWaiting (c : Nat) (cmd : String) (remaining : Nat)
deriving DecidableEq, Repr

/-- The global state of the program. -/
structure St where
  /-- every turtle object ever constructed, in creation order (used to find
  the name captured by a connection's `close` handler closure). -/
  objs : List TObj
  /-- the `turtles` registry array, in `push` order. -/
  turtles : List TObj
  /-- the heap of `status` fields, keyed by connection id. -/
  stat : List (Nat × TurtleStatus)
  /-- the `active` variable. -/
  active : Option TObj
  /-- the detached `repeat` tasks currently suspended at an `await`. -/
  tasks : List Task
  /-- the command loop's continuation. -/
  loop : LoopSt
  /-- connections whose `close` event has already fired. -/
  closedConns : List Nat
  /-- fresh connection id supply. -/
  nextConn : Nat
deriving DecidableEq, Repr

/-- Look up a status in the heap; connections are entered at creation with
`idle` (the `Turtle` constructor). -/
def statusOf (l : List (Nat × TurtleStatus)) (c : Nat) : TurtleStatus :=
  match l with
  | [] => .idle
  | p :: r => if p.1 = c then p.2 else statusOf r c

/-- Whether the heap has an entry for connection `c`. -/
def hasStat (l : List (Nat × TurtleStatus)) (c : Nat) : Bool :=
  l.any (fun p => p.1 = c)

/-- Write a status field through any alias of the turtle object. -/
def setStat (l : List (Nat × TurtleStatus)) (c : Nat) (v : TurtleStatus) :
    List (Nat × TurtleStatus) :=
  l.map (fun p => if p.1 = c then (c, v) else p)

/-- `turtles.find((turtle) => turtle.name === name)`: first match in array
order. -/
def findTurtle (l : List TObj) (name : String) : Option TObj :=
  l.find? (fun t => t.name = name)

/-- The immediate-rejection test at the top of `getReply`: it rejects with
"no selected turtle" when called with no turtle argument while `active` is
`null`, before registering any listener. -/
def getReplyRejects (turtle : Option TObj) (active : Option TObj) : Bool :=
  turtle.isNone && active.isNone

/-- `assign()`: marks the active turtle busy and clears the selection, in
one synchronous step; returns the turtle.  (The caller has checked `active`
is non-null.) -/
def assign (stat : List (Nat × TurtleStatus)) (a : TObj) :
    (List (Nat × TurtleStatus)) × Option TObj :=
  (setStat stat a.conn .busy, none)

/-- `release(t)`: marks the turtle idle again and, if no agent is currently
selected, promotes it to the active selection. -/
def release (stat : List (Nat × TurtleStatus)) (active : Option TObj) (t : TObj) :
    (List (Nat × TurtleStatus)) × Option TObj :=
  (setStat stat t.conn .idle,
    match active with
    | none => some t
    | some a => some a)

/-- The wire command for a movement direction: `turtle.${tokens[0]}()`. -/
inductive MoveDir
  | fwd
  | back
  | up
  | down
deriving DecidableEq, Repr

def moveCmd : MoveDir → String
  | .fwd => "turtle.forward()"
  | .back => "turtle.back()"
  | .up => "turtle.up()"
  | .down => "turtle.down()"

/-- The first two payloads `prospect` sends each iteration before its first
(failing) `await getReply()`. -/
def prospectDigCmd : String := "turtle.dig(); turtle.forward()"

def prospectLeftCmd : String :=
  "turtle.left(); local a, b = turtle.inspectUp(); turtle.right(); return b"

/-- The operator commands we model (parsing is excluded by the spec; a
command arrives pre-tokenised).  `move dir none` is the single
fire-and-forget movement, `move dir (some k)` the counted form. -/
inductive Cmd
  | selectT (name : String)
  | move (dir : MoveDir) (count : Option Int)
  | prospect (len : Int) (resource : String)
deriving DecidableEq, Repr

/-- Event-loop events: a completed connection handshake delivering a name, a
`close` or `error` event on a connection, an inbound message on a
connection, or a line of operator input becoming available. -/
inductive Ev
  | connect (name : String)
  | close (c : Nat)
  | errorEv (c : Nat)
  | message (c : Nat) (payload : String)
  | line (cmd : Cmd)
deriving DecidableEq, Repr

/-- Observable connection actions of one synchronous segment, in program
order: sending a payload, registering a `getReply` waiter, and a waiter
being resolved or rejected (removing its listeners). -/
inductive Act
  | send (c : Nat) (payload : String)
  | register (c : Nat)
  | resolve (c : Nat)
deriving DecidableEq, Repr

/-- The connections that currently have an outstanding `getReply` waiter
registered: the inline loop's wait, if any, plus one per suspended task. -/
def waitConns (s : St) : List Nat :=
  (match s.loop with
   | .inlineWaiting c _ _ => [c]
   | .atPrompt => []) ++ s.tasks.map (fun tk => tk.t.conn)

/-- A `message` event on connection `c` while the command loop is not
waiting on `c`: dispatch to the task suspended on `c`, if any; with no
waiter the message is dropped (the handshake `once` listener is long gone
and `getReply` listeners are one-shot). -/
def stepTaskMsg (s : St) (c : Nat) : Option (St × List Act) :=
  match s.tasks.find? (fun tk => tk.t.conn = c) with
  | none => some (s, [])
  | some tk =>
    if tk.remaining > 0 then
      -- next iteration of `repeat`'s loop: send, then `await getReply(t)`
      some ({ s with
              tasks := s.tasks.map (fun tk' =>
                if tk'.t.conn = c then { tk' with remaining := tk'.remaining - 1 }
                else tk') },
            [.resolve c, .send c tk.cmd, .register c])
    else
      -- loop finished: `release(t)`
      let r := release s.stat s.active tk.t
      some ({ s with
              stat := r.1
              active := r.2
              tasks := s.tasks.filter (fun tk' => !(tk'.t.conn = c)) },
            [.resolve c])

/-- One operator command, read at the prompt, run to its next suspension
point (or to completion). -/
def stepLine (s : St) : Cmd → Option (St × List Act)
  | .selectT name =>
    -- case "select"
    match findTurtle s.turtles name with
    | none => some (s, [])          -- "no such turtle"
    | some t =>
      if statusOf s.stat t.conn = .busy then some (s, [])  -- "turtle is busy"
      else some ({ s with active := some t }, [])
  | .move dir none =>
    match s.active with
    | none => some (s, [])          -- "expects an active turtle"
    | some a => some (s, [.send a.conn (moveCmd dir)])
  | .move dir (some k) =>
    match s.active with
    | none => some (s, [])
    | some a =>
      if k > 10 then
        -- `repeat(count, cmd)` fire-and-forget: runs `assign()` and the
        -- first iteration (send, then register the reply waiter)
        -- synchronously, then the loop breaks back to the prompt.
        let r := assign s.stat a
        some ({ s with
                stat := r.1
                active := r.2
                tasks := s.tasks ++ [⟨a, (k - 1).toNat, moveCmd dir⟩] },
              [.send a.conn (moveCmd dir), .register a.conn])
      else if k ≥ 1 then
        -- inline loop: first send, then suspended at `await getReply()`
        some ({ s with loop := .inlineWaiting a.conn (moveCmd dir) (k - 1).toNat },
              [.send a.conn (moveCmd dir), .register a.conn])
      else
        -- `for (let idx = count; idx > 0; --idx)` runs zero iterations
        some (s, [])
  | .prospect len _resource =>
    match s.active with
    | none => some (s, [])
    | some a =>
      -- the detached async IIFE runs synchronously up to its first `await`:
      let r := assign s.stat a
      if len ≤ 0 then
        -- `for (let idx = 0; idx < len; ++idx)` runs zero iterations and
        -- the IIFE proceeds straight to `release(t)`
        let r2 := release r.1 r.2 a
        some ({ s with stat := r2.1, active := r2.2 }, [])
      else
        -- first iteration: two sends, then `await getReply()` — called with
        -- no turtle argument while `assign()` has just set `active` to null
        if getReplyRejects none r.2 then
          -- the rejection propagates out of the un-caught IIFE; no waiter
          -- was registered and `release(t)` is never reached
          some ({ s with stat := r.1, active := r.2 },
                [.send a.conn prospectDigCmd, .send a.conn prospectLeftCmd])
        else
          -- unreachable: `assign()` has just cleared the selection
          some (s, [])

/-- The transition function.  `none` means the event cannot occur in this
state (e.g. operator input while the loop is suspended, or a `close` on a
connection that never existed or already closed). -/
def step (s : St) : Ev → Option (St × List Act)
  | .connect name =>
    -- `wss.on("connection")` + the handshake `once("message")` handler
    let t : TObj := ⟨s.nextConn, name⟩
    some ({ s with
            objs := s.objs ++ [t]
            turtles := s.turtles ++ [t]
            stat := (s.nextConn, .idle) :: s.stat
            active := match s.active with
              | none => some t
              | some a => some a
            nextConn := s.nextConn + 1 }, [])
  | .close c =>
    match s.objs.find? (fun t => t.conn = c) with
    | none => none
    | some tobj =>
      if s.closedConns.contains c then none
      else
        -- registry `once("close")` handler fires first (registered first):
        let n := tobj.name
        let turtles' := s.turtles.filter (fun t => !(t.name = n))
        let active' := match s.active with
          | some a => if a.name = n then none else some a
          | none => none
        -- then any getReply closeCallback on `c` rejects its waiter; the
        -- interactive loop catches the rejection, a task does not (and so
        -- never reaches `release`):
        let hadWaiter := (waitConns s).contains c
        let loop' := match s.loop with
          | .inlineWaiting c' cmd r =>
            if c' = c then .atPrompt else .inlineWaiting c' cmd r
          | .atPrompt => .atPrompt
        some ({ s with
                turtles := turtles'
                active := active'
                loop := loop'
                tasks := s.tasks.filter (fun tk => !(tk.t.conn = c))
                closedConns := c :: s.closedConns },
              if hadWaiter then [.resolve c] else [])
  | .errorEv c =>
    -- an `error` event is only deliverable to a registered errorCallback
    -- (an `error` with no listener is fatal to the process and out of
    -- scope), and it rejects that waiter
    if s.closedConns.contains c then none
    else if (waitConns s).contains c then
      let loop' := match s.loop with
        | .inlineWaiting c' cmd r =>
          if c' = c then .atPrompt else .inlineWaiting c' cmd r
        | .atPrompt => .atPrompt
      some ({ s with
              loop := loop'
              tasks := s.tasks.filter (fun tk => !(tk.t.conn = c)) },
            [.resolve c])
    else none
  | .message c _payload =>
    if s.closedConns.contains c || !(s.objs.any (fun t => t.conn = c)) then none
    else
      match s.loop with
      | .inlineWaiting c' cmd rem =>
        if c' = c then
          if rem > 0 then
            -- next inline iteration: `active.ws.send(...)` reads the
            -- *current* value of the global `active`, then `getReply()`
            -- registers on it
            match s.active with
            | none =>
              -- `active.ws` throws a TypeError, caught by the loop's catch
              some ({ s with loop := .atPrompt }, [.resolve c])
            | some a =>
              some ({ s with loop := .inlineWaiting a.conn cmd (rem - 1) },
                    [.resolve c, .send a.conn cmd, .register a.conn])
          else
            some ({ s with loop := .atPrompt }, [.resolve c])
        else stepTaskMsg s c
      | .atPrompt => stepTaskMsg s c
  | .line cmd =>
    -- `io.question` resolves only while the loop is at the prompt
    if s.loop = .atPrompt then stepLine s cmd else none

/-- The initial state: no turtles, no selection, loop at the prompt. -/
def init : St := ⟨[], [], [], none, [], .atPrompt, [], 0⟩

/-- Reachable program states. -/
inductive Reach : St → Prop
  | init : Reach init
  | next {s : St} {e : Ev} {s' : St} {acts : List Act} :
      Reach s → step s e = some (s', acts) → Reach s'

/-- Run a list of events from a state (discarding actions). -/
def runTrace (s : St) : List Ev → Option St
  | [] => some s
  | e :: r =>
    match step s e with
    | some (s', _) => runTrace s' r
    | none => none

/-- Replay a segment's actions against the set of pending waiter
connections, checking the mutual-exclusion discipline the correlator needs:
a payload is only ever sent on a connection with no unresolved waiter, and a
waiter is only registered on a connection with no existing waiter. -/
def replayOk : List Nat → List Act → Bool
  | _, [] => true
  | p, .send c _ :: r => !(p.contains c) && replayOk p r
  | p, .register c :: r => !(p.contains c) && replayOk (c :: p) r
  | p, .resolve c :: r => replayOk (p.erase c) r

/-- The discipline the specification claims instead: every send finds its
waiter already registered (waiter registered before the payload is sent). -/
def sendAfterRegister : List Nat → List Act → Bool
  | _, [] => true
  | p, .send c _ :: r => p.contains c && sendAfterRegister p r
  | p, .register c :: r => sendAfterRegister (c :: p) r
  | p, .resolve c :: r => sendAfterRegister (p.erase c) r

/-- Every waiter registration in a segment is preceded, in the same
synchronous segment, by a send on the same connection. -/
def registerFollowsSend (seen : List Nat) : List Act → Bool
  | [] => true
  | .send c _ :: r => registerFollowsSend (c :: seen) r
  | .register c :: r => seen.contains c && registerFollowsSend seen r
  | .resolve _ :: r => registerFollowsSend seen r

/-! ### The listener mechanics of one `getReply` wait

`getReply` (lines 75–95 of `main.ts`) registers three one-shot (`once`)
listeners on the turtle's websocket — `errorCallback`, `closeCallback`,
`messageCallback` — and each callback, when invoked, explicitly removes
(`off`) its two siblings and settles the promise.  We embed one wait as a
state machine over the three listener-present flags, the settled result of
the promise, and a count of callback invocations. -/

/-- How the promise of a `getReply` wait settles. -/
inductive GROutcome
  | msg (m : String)
  | errored
  | connClosed
deriving DecidableEq, Repr

/-- Websocket events that can reach the three listeners. -/
inductive GREvent
  | message (m : String)
  | errorEv
  | closeEv
deriving DecidableEq, Repr

def grOutcome : GREvent → GROutcome
  | .message m => .msg m
  | .errorEv => .errored
  | .closeEv => .connClosed

/-- Listener flags (`once` registrations still present), the promise's
settled value, and how many of the three callbacks have run. -/
structure GRState where
  msgOn : Bool
  errOn : Bool
  closeOn : Bool
  result : Option GROutcome
  fired : Nat
deriving DecidableEq, Repr

/-- State right after `getReply` registers its listeners. -/
def grInit : GRState := ⟨true, true, true, none, 0⟩

/-- A promise settles only once; later resolve/reject calls are ignored. -/
def grSettle (r : Option GROutcome) (v : GROutcome) : Option GROutcome :=
  match r with
  | none => some v
  | some w => some w

/-- Deliver one websocket event.  A `once` listener that fires removes
itself; the callback body then removes its two siblings and settles the
promise.  An event whose listener is absent invokes no callback. -/
def grFire (s : GRState) : GREvent → GRState
  | .message m =>
    if s.msgOn then
      ⟨false, false, false, grSettle s.result (.msg m), s.fired + 1⟩
    else s
  | .errorEv =>
    if s.errOn then
      ⟨false, false, false, grSettle s.result .errored, s.fired + 1⟩
    else s
  | .closeEv =>
    if s.closeOn then
      ⟨false, false, false, grSettle s.result .connClosed, s.fired + 1⟩
    else s

/-- Deliver a sequence of websocket events. -/
def grRun (s : GRState) (es : List GREvent) : GRState :=
  es.foldl grFire s

/-! ### The reachability invariant

The conjunction of facts about the global state that every reachable state
satisfies, from which the mutual-exclusion properties follow: the selected
agent (if any) is idle, every detached task's agent is busy, no two tasks
run against the same connection, and the command loop only ever waits on an
idle agent's connection.  The bookkeeping clauses (`…Lt`, `…Mem`) say that
every referenced connection id is in the status heap and below the fresh-id
supply. -/
structure Inv (s : St) : Prop where
  activeIdle : ∀ a, s.active = some a → statusOf s.stat a.conn = .idle
  activeLt : ∀ a, s.active = some a → a.conn < s.nextConn
  activeMem : ∀ a, s.active = some a → hasStat s.stat a.conn = true
  taskBusy : ∀ tk, tk ∈ s.tasks → statusOf s.stat tk.t.conn = .busy
  taskLt : ∀ tk, tk ∈ s.tasks → tk.t.conn < s.nextConn
  taskNodup : (s.tasks.map (fun tk => tk.t.conn)).Nodup
  loopIdle : ∀ c cmd r, s.loop = .inlineWaiting c cmd r → statusOf s.stat c = .idle
  loopLt : ∀ c cmd r, s.loop = .inlineWaiting c cmd r → c < s.nextConn
  regLt : ∀ t, t ∈ s.turtles → t.conn < s.nextConn
  regMem : ∀ t, t ∈ s.turtles → hasStat s.stat t.conn = true
  statLt : ∀ p, p ∈ s.stat → p.1 < s.nextConn

/-! ### Heap lemmas -/

theorem statusOf_setStat_ne (l : List (Nat × TurtleStatus)) (c c' : Nat)
    (v : TurtleStatus) (h : c' ≠ c) : statusOf (setStat l c v) c' = statusOf l c' := by
  induction l with
  | nil => rfl
  | cons p r ih =>
    simp only [setStat, List.map, statusOf]
    by_cases hp : p.1 = c
    · subst hp
      simp only [if_pos rfl]
      rw [if_neg (fun hh => h hh.symm), if_neg (fun hh => h hh.symm)]
      simpa [setStat] using ih
    · rw [if_neg hp]
      by_cases hp' : p.1 = c'
      · simp [hp']
      · simp only [if_neg hp']
        simpa [setStat] using ih

theorem statusOf_setStat_self (l : List (Nat × TurtleStatus)) (c : Nat)
    (v : TurtleStatus) (h : hasStat l c = true) : statusOf (setStat l c v) c = v := by
  induction l with
  | nil => simp [hasStat] at h
  | cons p r ih =>
    simp only [setStat, List.map, statusOf]
    by_cases hp : p.1 = c
    · simp [hp]
    · rw [if_neg hp, if_neg hp]
      have h' : hasStat r c = true := by
        simp only [hasStat, List.any, Bool.or_eq_true, decide_eq_true_eq] at h ⊢
        tauto
      simpa [setStat] using ih h'

theorem hasStat_setStat (l : List (Nat × TurtleStatus)) (c c' : Nat)
    (v : TurtleStatus) : hasStat (setStat l c v) c' = hasStat l c' := by
  induction l with
  | nil => rfl
  | cons p r ih =>
    simp only [setStat, List.map, hasStat, List.any] at *
    by_cases hp : p.1 = c
    · simp [hp, ih]
    · simp [hp, ih]

theorem hasStat_of_busy (l : List (Nat × TurtleStatus)) (c : Nat)
    (h : statusOf l c = .busy) : hasStat l c = true := by
  induction l with
  | nil => simp [statusOf] at h
  | cons p r ih =>
    simp only [statusOf] at h
    simp only [hasStat, List.any]
    by_cases hp : p.1 = c
    · simp [hp]
    · rw [if_neg hp] at h
      simp [hp, ih h, hasStat] at *
      exact ih h

theorem keys_setStat (l : List (Nat × TurtleStatus)) (c : Nat) (v : TurtleStatus) :
    (setStat l c v).map Prod.fst = l.map Prod.fst := by
  induction l with
  | nil => rfl
  | cons p r ih =>
    simp only [setStat, List.map] at *
    by_cases hp : p.1 = c
    · simp [hp, ih]
    · simp [hp, ih]

theorem statusOf_fresh (l : List (Nat × TurtleStatus)) (c : Nat)
    (h : hasStat l c = false) : statusOf l c = .idle := by
  induction l with
  | nil => rfl
  | cons p r ih =>
    simp only [hasStat, List.any, Bool.or_eq_false_iff, decide_eq_false_iff_not] at h
    simp only [statusOf, if_neg h.1]
    exact ih (by simp [hasStat, h.2])

theorem hasStat_lt (l : List (Nat × TurtleStatus)) (c n : Nat)
    (hlt : ∀ p ∈ l, p.1 < n) (hc : n ≤ c) : hasStat l c = false := by
  induction l with
  | nil => rfl
  | cons p r ih =>
    simp only [hasStat, List.any, Bool.or_eq_false_iff, decide_eq_false_iff_not]
    constructor
    · intro hp
      have := hlt p (by simp)
      omega
    · have := ih (fun q hq => hlt q (by simp [hq]))
      simpa [hasStat] using this

theorem statusOf_cons_ne (p : Nat × TurtleStatus) (l : List (Nat × TurtleStatus))
    (c : Nat) (h : p.1 ≠ c) : statusOf (p :: l) c = statusOf l c := by
  simp [statusOf, h]

theorem inv_init : Inv init := by
  constructor <;> simp [init]

theorem inv_connect {s s' : St} {name : String} {acts : List Act}
    (hI : Inv s) (h : step s (.connect name) = some (s', acts)) : Inv s' := by
  simp only [step, Option.some.injEq, Prod.mk.injEq] at h
  obtain ⟨hs, -⟩ := h
  subst hs
  have hfresh : ∀ c, c < s.nextConn → statusOf ((s.nextConn, .idle) :: s.stat) c = statusOf s.stat c := by
    intro c hc
    exact statusOf_cons_ne _ _ _ (by omega)
  have hfreshMem : ∀ c, c < s.nextConn →
      hasStat ((s.nextConn, .idle) :: s.stat) c = hasStat s.stat c := by
    intro c hc
    have hne : s.nextConn ≠ c := by omega
    simp [hasStat, List.any, hne]
  constructor
  · intro a ha
    simp only at ha
    cases hA : s.active with
    | none =>
      simp only [hA] at ha
      cases ha
      simp [statusOf]
    | some a0 =>
      simp only [hA] at ha
      cases ha
      rw [hfresh _ (hI.activeLt _ hA)]
      exact hI.activeIdle _ hA
  · intro a ha
    simp only at ha
    cases hA : s.active with
    | none =>
      simp only [hA] at ha
      cases ha
      simp
    | some a0 =>
      simp only [hA] at ha
      cases ha
      have := hI.activeLt _ hA
      simp only
      omega
  · intro a ha
    simp only at ha
    cases hA : s.active with
    | none =>
      simp only [hA] at ha
      cases ha
      simp [hasStat]
    | some a0 =>
      simp only [hA] at ha
      cases ha
      rw [hfreshMem _ (hI.activeLt _ hA)]
      exact hI.activeMem _ hA
  · intro tk htk
    simp only at htk
    rw [hfresh _ (hI.taskLt tk htk)]
    exact hI.taskBusy tk htk
  · intro tk htk
    simp only at htk
    have := hI.taskLt tk htk
    simp only
    omega
  · exact hI.taskNodup
  · intro c cmd r hl
    simp only at hl
    rw [hfresh _ (hI.loopLt c cmd r hl)]
    exact hI.loopIdle c cmd r hl
  · intro c cmd r hl
    simp only at hl
    have := hI.loopLt c cmd r hl
    simp only
    omega
  · intro t ht
    simp only [List.mem_append, List.mem_singleton] at ht
    rcases ht with ht | ht
    · have := hI.regLt t ht
      simp only
      omega
    · subst ht
      simp
  · intro t ht
    simp only [List.mem_append, List.mem_singleton] at ht
    rcases ht with ht | ht
    · rw [hfreshMem _ (hI.regLt t ht)]
      exact hI.regMem t ht
    · subst ht
      simp [hasStat]
  · intro p hp
    simp only [List.mem_cons] at hp
    rcases hp with hp | hp
    · subst hp
      simp
    · have := hI.statLt p hp
      simp only
      omega

theorem nodup_filter_map_conn (tasks : List Task) (p : Task → Bool)
    (h : (tasks.map (fun tk => tk.t.conn)).Nodup) :
    ((tasks.filter p).map (fun tk => tk.t.conn)).Nodup :=
  h.sublist (List.Sublist.map _ (List.filter_sublist tasks))

theorem inv_close {s s' : St} {c : Nat} {acts : List Act}
    (hI : Inv s) (h : step s (.close c) = some (s', acts)) : Inv s' := by
  simp only [step] at h
  cases hF : s.objs.find? (fun t => t.conn = c) with
  | none =>
    rw [hF] at h
    cases h
  | some tobj =>
    rw [hF] at h
    by_cases hC : s.closedConns.contains c = true
    · simp only [hC, if_true] at h
      cases h
    · simp only [hC, if_false, Bool.false_eq_true, Option.some.injEq,
        Prod.mk.injEq] at h
      obtain ⟨hs, -⟩ := h
      subst hs
      constructor
      · intro a ha
        simp only at ha
        cases hA : s.active with
        | none =>
          simp only [hA] at ha
          cases ha
        | some a0 =>
          simp only [hA] at ha
          by_cases hn : a0.name = tobj.name
          · simp only [hn, if_pos rfl] at ha
            cases ha
          · rw [if_neg hn] at ha
            cases ha
            exact hI.activeIdle _ hA
      · intro a ha
        simp only at ha
        cases hA : s.active with
        | none =>
          simp only [hA] at ha
          cases ha
        | some a0 =>
          simp only [hA] at ha
          by_cases hn : a0.name = tobj.name
          · simp only [hn, if_pos rfl] at ha
            cases ha
          · rw [if_neg hn] at ha
            cases ha
            exact hI.activeLt _ hA
      · intro a ha
        simp only at ha
        cases hA : s.active with
        | none =>
          simp only [hA] at ha
          cases ha
        | some a0 =>
          simp only [hA] at ha
          by_cases hn : a0.name = tobj.name
          · simp only [hn, if_pos rfl] at ha
            cases ha
          · rw [if_neg hn] at ha
            cases ha
            exact hI.activeMem _ hA
      · intro tk htk
        simp only [List.mem_filter] at htk
        exact hI.taskBusy tk htk.1
      · intro tk htk
        simp only [List.mem_filter] at htk
        exact hI.taskLt tk htk.1
      · exact nodup_filter_map_conn _ _ hI.taskNodup
      · intro c2 cmd r hl
        simp only at hl
        cases hL : s.loop with
        | atPrompt =>
          simp only [hL] at hl
          cases hl
        | inlineWaiting c' cmd' r' =>
          simp only [hL] at hl
          by_cases hcc : c' = c
          · simp only [hcc, if_pos rfl] at hl
            cases hl
          · rw [if_neg hcc] at hl
            cases hl
            exact hI.loopIdle _ _ _ hL
      · intro c2 cmd r hl
        simp only at hl
        cases hL : s.loop with
        | atPrompt =>
          simp only [hL] at hl
          cases hl
        | inlineWaiting c' cmd' r' =>
          simp only [hL] at hl
          by_cases hcc : c' = c
          · simp only [hcc, if_pos rfl] at hl
            cases hl
          · rw [if_neg hcc] at hl
            cases hl
            exact hI.loopLt _ _ _ hL
      · intro t ht
        simp only [List.mem_filter] at ht
        exact hI.regLt t ht.1
      · intro t ht
        simp only [List.mem_filter] at ht
        exact hI.regMem t ht.1
      · exact hI.statLt

theorem inv_error {s s' : St} {c : Nat} {acts : List Act}
    (hI : Inv s) (h : step s (.errorEv c) = some (s', acts)) : Inv s' := by
  simp only [step] at h
  by_cases hC : s.closedConns.contains c = true
  · simp only [hC, if_true] at h
    cases h
  · simp only [hC, if_false, Bool.false_eq_true] at h
    by_cases hW : (waitConns s).contains c = true
    · simp only [hW, if_true, Option.some.injEq, Prod.mk.injEq] at h
      obtain ⟨hs, -⟩ := h
      subst hs
      constructor
      · exact fun a ha => hI.activeIdle a ha
      · exact fun a ha => hI.activeLt a ha
      · exact fun a ha => hI.activeMem a ha
      · intro tk htk
        simp only [List.mem_filter] at htk
        exact hI.taskBusy tk htk.1
      · intro tk htk
        simp only [List.mem_filter] at htk
        exact hI.taskLt tk htk.1
      · exact nodup_filter_map_conn _ _ hI.taskNodup
      · intro c2 cmd r hl
        simp only at hl
        cases hL : s.loop with
        | atPrompt =>
          simp only [hL] at hl
          cases hl
        | inlineWaiting c' cmd' r' =>
          simp only [hL] at hl
          by_cases hcc : c' = c
          · simp only [hcc, if_pos rfl] at hl
            cases hl
          · rw [if_neg hcc] at hl
            cases hl
            exact hI.loopIdle _ _ _ hL
      · intro c2 cmd r hl
        simp only at hl
        cases hL : s.loop with
        | atPrompt =>
          simp only [hL] at hl
          cases hl
        | inlineWaiting c' cmd' r' =>
          simp only [hL] at hl
          by_cases hcc : c' = c
          · simp only [hcc, if_pos rfl] at hl
            cases hl
          · rw [if_neg hcc] at hl
            cases hl
            exact hI.loopLt _ _ _ hL
      · exact hI.regLt
      · exact hI.regMem
      · exact hI.statLt
    · simp only [hW, if_false, Bool.false_eq_true] at h
      cases h

theorem statLt_setStat (l : List (Nat × TurtleStatus)) (c : Nat) (v : TurtleStatus)
    (n : Nat) (h : ∀ p ∈ l, p.1 < n) : ∀ p ∈ setStat l c v, p.1 < n := by
  intro p hp
  simp only [setStat, List.mem_map] at hp
  obtain ⟨q, hq, hfq⟩ := hp
  by_cases hqc : q.1 = c
  · rw [if_pos hqc] at hfq
    cases hfq
    have := h q hq
    omega
  · rw [if_neg hqc] at hfq
    subst hfq
    exact h q hq

theorem inv_taskMsg {s s' : St} {c : Nat} {acts : List Act}
    (hI : Inv s) (h : stepTaskMsg s c = some (s', acts)) : Inv s' := by
  simp only [stepTaskMsg] at h
  cases hF : s.tasks.find? (fun tk => tk.t.conn = c) with
  | none =>
    rw [hF] at h
    simp only [Option.some.injEq, Prod.mk.injEq] at h
    obtain ⟨hs, -⟩ := h
    subst hs
    exact hI
  | some tk =>
    rw [hF] at h
    have htkMem : tk ∈ s.tasks := List.mem_of_find?_eq_some hF
    have htkConn : tk.t.conn = c := by
      have := List.find?_some hF
      simpa using this
    by_cases hrem : tk.remaining > 0
    · simp only [hrem, if_pos, Option.some.injEq, Prod.mk.injEq] at h
      obtain ⟨hs, -⟩ := h
      subst hs
      have hconns : ((s.tasks.map (fun tk' =>
          if tk'.t.conn = c then { tk' with remaining := tk'.remaining - 1 }
          else tk')).map (fun tk => tk.t.conn)) = s.tasks.map (fun tk => tk.t.conn) := by
        rw [List.map_map]
        refine List.map_congr_left ?_
        intro x hx
        by_cases hxc : x.t.conn = c
        · simp [hxc]
        · simp [hxc]
      constructor
      · exact fun a ha => hI.activeIdle a ha
      · exact fun a ha => hI.activeLt a ha
      · exact fun a ha => hI.activeMem a ha
      · intro tk' htk'
        simp only [List.mem_map] at htk'
        obtain ⟨tk0, htk0, hf⟩ := htk'
        by_cases hc0 : tk0.t.conn = c
        · rw [if_pos hc0] at hf
          subst hf
          exact hI.taskBusy tk0 htk0
        · rw [if_neg hc0] at hf
          subst hf
          exact hI.taskBusy tk0 htk0
      · intro tk' htk'
        simp only [List.mem_map] at htk'
        obtain ⟨tk0, htk0, hf⟩ := htk'
        by_cases hc0 : tk0.t.conn = c
        · rw [if_pos hc0] at hf
          subst hf
          exact hI.taskLt tk0 htk0
        · rw [if_neg hc0] at hf
          subst hf
          exact hI.taskLt tk0 htk0
      · simp only
        rw [hconns]
        exact hI.taskNodup
      · exact fun c2 cmd r hl => hI.loopIdle c2 cmd r hl
      · exact fun c2 cmd r hl => hI.loopLt c2 cmd r hl
      · exact hI.regLt
      · exact hI.regMem
      · exact hI.statLt
    · subst htkConn
      simp only [hrem, if_neg, if_false, release, Option.some.injEq,
        Prod.mk.injEq] at h
      obtain ⟨hs, -⟩ := h
      subst hs
      have hbusy : statusOf s.stat tk.t.conn = .busy := hI.taskBusy tk htkMem
      have hmem : hasStat s.stat tk.t.conn = true := hasStat_of_busy _ _ hbusy
      constructor
      · intro a ha
        dsimp only at ha ⊢
        cases hA : s.active with
        | none =>
          rw [hA] at ha
          cases ha
          exact statusOf_setStat_self _ _ _ hmem
        | some a0 =>
          rw [hA] at ha
          cases ha
          have hne : a.conn ≠ tk.t.conn := by
            intro he
            have := hI.activeIdle _ hA
            rw [he, hbusy] at this
            cases this
          rw [statusOf_setStat_ne _ _ _ _ hne]
          exact hI.activeIdle _ hA
      · intro a ha
        dsimp only at ha ⊢
        cases hA : s.active with
        | none =>
          rw [hA] at ha
          cases ha
          exact hI.taskLt tk htkMem
        | some a0 =>
          rw [hA] at ha
          cases ha
          exact hI.activeLt _ hA
      · intro a ha
        dsimp only at ha ⊢
        cases hA : s.active with
        | none =>
          rw [hA] at ha
          cases ha
          rw [hasStat_setStat]
          exact hmem
        | some a0 =>
          rw [hA] at ha
          cases ha
          rw [hasStat_setStat]
          exact hI.activeMem _ hA
      · intro tk' htk'
        dsimp only at htk' ⊢
        simp only [List.mem_filter, Bool.not_eq_eq_eq_not, Bool.not_true,
          decide_eq_false_iff_not] at htk'
        rw [statusOf_setStat_ne _ _ _ _ htk'.2]
        exact hI.taskBusy tk' htk'.1
      · intro tk' htk'
        dsimp only at htk'
        simp only [List.mem_filter] at htk'
        exact hI.taskLt tk' htk'.1
      · exact nodup_filter_map_conn _ _ hI.taskNodup
      · intro c2 cmd r hl
        dsimp only at hl ⊢
        by_cases hcc : c2 = tk.t.conn
        · subst hcc
          rw [statusOf_setStat_self _ _ _ hmem]
        · rw [statusOf_setStat_ne _ _ _ _ hcc]
          exact hI.loopIdle c2 cmd r hl
      · exact fun c2 cmd r hl => hI.loopLt c2 cmd r hl
      · exact hI.regLt
      · intro t ht
        dsimp only at ht ⊢
        rw [hasStat_setStat]
        exact hI.regMem t ht
      · exact statLt_setStat _ _ _ _ hI.statLt

theorem inv_message {s s' : St} {c : Nat} {payload : String} {acts : List Act}
    (hI : Inv s) (h : step s (.message c payload) = some (s', acts)) : Inv s' := by
  simp only [step] at h
  by_cases hG : (s.closedConns.contains c || !(s.objs.any (fun t => t.conn = c))) = true
  · rw [if_pos hG] at h
    cases h
  · rw [if_neg hG] at h
    cases hL : s.loop with
    | atPrompt =>
      rw [hL] at h
      exact inv_taskMsg hI h
    | inlineWaiting c' cmd rem =>
      rw [hL] at h
      dsimp only at h
      by_cases hcc : c' = c
      · rw [if_pos hcc] at h
        by_cases hrem : rem > 0
        · rw [if_pos hrem] at h
          cases hA : s.active with
          | none =>
            rw [hA] at h
            simp only [Option.some.injEq, Prod.mk.injEq] at h
            obtain ⟨hs, -⟩ := h
            subst hs
            constructor
            · intro a ha
              dsimp only at ha
              cases ha
            · intro a ha
              dsimp only at ha
              cases ha
            · intro a ha
              dsimp only at ha
              cases ha
            · exact fun tk htk => hI.taskBusy tk htk
            · exact fun tk htk => hI.taskLt tk htk
            · exact hI.taskNodup
            · intro c2 cmd2 r hl
              dsimp only at hl
              cases hl
            · intro c2 cmd2 r hl
              dsimp only at hl
              cases hl
            · exact hI.regLt
            · exact hI.regMem
            · exact hI.statLt
          | some a =>
            rw [hA] at h
            simp only [Option.some.injEq, Prod.mk.injEq] at h
            obtain ⟨hs, -⟩ := h
            subst hs
            constructor
            · intro a2 ha
              dsimp only at ha
              cases ha
              exact hI.activeIdle _ hA
            · intro a2 ha
              dsimp only at ha
              cases ha
              exact hI.activeLt _ hA
            · intro a2 ha
              dsimp only at ha
              cases ha
              exact hI.activeMem _ hA
            · exact fun tk htk => hI.taskBusy tk htk
            · exact fun tk htk => hI.taskLt tk htk
            · exact hI.taskNodup
            · intro c2 cmd2 r hl
              dsimp only at hl
              simp only [LoopSt.inlineWaiting.injEq] at hl
              obtain ⟨h1, -, -⟩ := hl
              subst h1
              exact hI.activeIdle _ hA
            · intro c2 cmd2 r hl
              dsimp only at hl
              simp only [LoopSt.inlineWaiting.injEq] at hl
              obtain ⟨h1, -, -⟩ := hl
              subst h1
              exact hI.activeLt _ hA
            · exact hI.regLt
            · exact hI.regMem
            · exact hI.statLt
        · rw [if_neg hrem] at h
          simp only [Option.some.injEq, Prod.mk.injEq] at h
          obtain ⟨hs, -⟩ := h
          subst hs
          constructor
          · exact fun a ha => hI.activeIdle a ha
          · exact fun a ha => hI.activeLt a ha
          · exact fun a ha => hI.activeMem a ha
          · exact fun tk htk => hI.taskBusy tk htk
          · exact fun tk htk => hI.taskLt tk htk
          · exact hI.taskNodup
          · intro c2 cmd2 r hl
            simp only at hl
            cases hl
          · intro c2 cmd2 r hl
            simp only at hl
            cases hl
          · exact hI.regLt
          · exact hI.regMem
          · exact hI.statLt
      · rw [if_neg hcc] at h
        exact inv_taskMsg hI h

theorem inv_line {s s' : St} {cmd : Cmd} {acts : List Act}
    (hI : Inv s) (h : step s (.line cmd) = some (s', acts)) : Inv s' := by
  simp only [step] at h
  by_cases hP : s.loop = .atPrompt
  · rw [if_pos hP] at h
    cases cmd with
    | selectT name =>
      simp only [stepLine] at h
      cases hF : findTurtle s.turtles name with
      | none =>
        rw [hF] at h
        simp only [Option.some.injEq, Prod.mk.injEq] at h
        obtain ⟨hs, -⟩ := h
        subst hs
        exact hI
      | some t =>
        rw [hF] at h
        dsimp only at h
        have htMem : t ∈ s.turtles := List.mem_of_find?_eq_some hF
        by_cases hB : statusOf s.stat t.conn = .busy
        · rw [if_pos hB] at h
          simp only [Option.some.injEq, Prod.mk.injEq] at h
          obtain ⟨hs, -⟩ := h
          subst hs
          exact hI
        · rw [if_neg hB] at h
          simp only [Option.some.injEq, Prod.mk.injEq] at h
          obtain ⟨hs, -⟩ := h
          subst hs
          have hidle : statusOf s.stat t.conn = .idle := by
            cases hc : statusOf s.stat t.conn
            · rfl
            · exact absurd hc hB
          constructor
          · intro a ha
            dsimp only at ha
            cases ha
            exact hidle
          · intro a ha
            dsimp only at ha
            cases ha
            exact hI.regLt t htMem
          · intro a ha
            dsimp only at ha
            cases ha
            exact hI.regMem t htMem
          · exact fun tk htk => hI.taskBusy tk htk
          · exact fun tk htk => hI.taskLt tk htk
          · exact hI.taskNodup
          · exact fun c2 cmd2 r hl => hI.loopIdle c2 cmd2 r hl
          · exact fun c2 cmd2 r hl => hI.loopLt c2 cmd2 r hl
          · exact hI.regLt
          · exact hI.regMem
          · exact hI.statLt
    | move dir count =>
      cases count with
      | none =>
        simp only [stepLine] at h
        cases hA : s.active with
        | none =>
          rw [hA] at h
          simp only [Option.some.injEq, Prod.mk.injEq] at h
          obtain ⟨hs, -⟩ := h
          subst hs
          exact hI
        | some a =>
          rw [hA] at h
          simp only [Option.some.injEq, Prod.mk.injEq] at h
          obtain ⟨hs, -⟩ := h
          subst hs
          exact hI
      | some k =>
        simp only [stepLine] at h
        cases hA : s.active with
        | none =>
          rw [hA] at h
          simp only [Option.some.injEq, Prod.mk.injEq] at h
          obtain ⟨hs, -⟩ := h
          subst hs
          exact hI
        | some a =>
          rw [hA] at h
          dsimp only at h
          have haIdle : statusOf s.stat a.conn = .idle := hI.activeIdle _ hA
          have haMem : hasStat s.stat a.conn = true := hI.activeMem _ hA
          have haLt : a.conn < s.nextConn := hI.activeLt _ hA
          have hneTask : ∀ tk ∈ s.tasks, tk.t.conn ≠ a.conn := by
            intro tk htk he
            have := hI.taskBusy tk htk
            rw [he, haIdle] at this
            cases this
          by_cases hk : k > 10
          · rw [if_pos hk] at h
            simp only [assign, Option.some.injEq, Prod.mk.injEq] at h
            obtain ⟨hs, -⟩ := h
            subst hs
            constructor
            · intro a2 ha
              dsimp only at ha
              cases ha
            · intro a2 ha
              dsimp only at ha
              cases ha
            · intro a2 ha
              dsimp only at ha
              cases ha
            · intro tk htk
              dsimp only at htk ⊢
              simp only [List.mem_append, List.mem_singleton] at htk
              rcases htk with htk | htk
              · rw [statusOf_setStat_ne _ _ _ _ (hneTask tk htk)]
                exact hI.taskBusy tk htk
              · subst htk
                exact statusOf_setStat_self _ _ _ haMem
            · intro tk htk
              dsimp only at htk
              simp only [List.mem_append, List.mem_singleton] at htk
              rcases htk with htk | htk
              · exact hI.taskLt tk htk
              · subst htk
                exact haLt
            · dsimp only
              rw [List.map_append]
              refine List.Nodup.append hI.taskNodup (by simp) ?_
              intro x hx hx2
              simp only [List.map_cons, List.map_nil, List.mem_singleton] at hx2
              subst hx2
              simp only [List.mem_map] at hx
              obtain ⟨tk, htk, hc⟩ := hx
              exact hneTask tk htk hc
            · intro c2 cmd2 r hl
              dsimp only at hl
              rw [hP] at hl
              cases hl
            · intro c2 cmd2 r hl
              dsimp only at hl
              rw [hP] at hl
              cases hl
            · exact hI.regLt
            · intro t ht
              dsimp only at ht ⊢
              rw [hasStat_setStat]
              exact hI.regMem t ht
            · exact statLt_setStat _ _ _ _ hI.statLt
          · rw [if_neg hk] at h
            by_cases hk1 : k ≥ 1
            · rw [if_pos hk1] at h
              simp only [Option.some.injEq, Prod.mk.injEq] at h
              obtain ⟨hs, -⟩ := h
              subst hs
              constructor
              · intro a2 ha
                dsimp only at ha
                cases ha
                exact haIdle
              · intro a2 ha
                dsimp only at ha
                cases ha
                exact haLt
              · intro a2 ha
                dsimp only at ha
                cases ha
                exact haMem
              · exact fun tk htk => hI.taskBusy tk htk
              · exact fun tk htk => hI.taskLt tk htk
              · exact hI.taskNodup
              · intro c2 cmd2 r hl
                dsimp only at hl
                simp only [LoopSt.inlineWaiting.injEq] at hl
                obtain ⟨h1, -, -⟩ := hl
                subst h1
                exact haIdle
              · intro c2 cmd2 r hl
                dsimp only at hl
                simp only [LoopSt.inlineWaiting.injEq] at hl
                obtain ⟨h1, -, -⟩ := hl
                subst h1
                exact haLt
              · exact hI.regLt
              · exact hI.regMem
              · exact hI.statLt
            · rw [if_neg hk1] at h
              simp only [Option.some.injEq, Prod.mk.injEq] at h
              obtain ⟨hs, -⟩ := h
              subst hs
              exact hI
    | prospect len res =>
      simp only [stepLine] at h
      cases hA : s.active with
      | none =>
        rw [hA] at h
        simp only [Option.some.injEq, Prod.mk.injEq] at h
        obtain ⟨hs, -⟩ := h
        subst hs
        exact hI
      | some a =>
        rw [hA] at h
        dsimp only at h
        have haIdle : statusOf s.stat a.conn = .idle := hI.activeIdle _ hA
        have haMem : hasStat s.stat a.conn = true := hI.activeMem _ hA
        have haLt : a.conn < s.nextConn := hI.activeLt _ hA
        have hneTask : ∀ tk ∈ s.tasks, tk.t.conn ≠ a.conn := by
          intro tk htk he
          have := hI.taskBusy tk htk
          rw [he, haIdle] at this
          cases this
        by_cases hlen : len ≤ 0
        · rw [if_pos hlen] at h
          simp only [assign, release, Option.some.injEq, Prod.mk.injEq] at h
          obtain ⟨hs, -⟩ := h
          subst hs
          have hmem2 : hasStat (setStat s.stat a.conn .busy) a.conn = true := by
            rw [hasStat_setStat]
            exact haMem
          constructor
          · intro a2 ha
            dsimp only at ha
            cases ha
            exact statusOf_setStat_self _ _ _ hmem2
          · intro a2 ha
            dsimp only at ha
            cases ha
            exact haLt
          · intro a2 ha
            dsimp only at ha
            cases ha
            rw [hasStat_setStat, hasStat_setStat]
            exact haMem
          · intro tk htk
            dsimp only at htk ⊢
            rw [statusOf_setStat_ne _ _ _ _ (hneTask tk htk),
              statusOf_setStat_ne _ _ _ _ (hneTask tk htk)]
            exact hI.taskBusy tk htk
          · exact fun tk htk => hI.taskLt tk htk
          · exact hI.taskNodup
          · intro c2 cmd2 r hl
            dsimp only at hl
            rw [hP] at hl
            cases hl
          · intro c2 cmd2 r hl
            dsimp only at hl
            rw [hP] at hl
            cases hl
          · exact hI.regLt
          · intro t ht
            dsimp only at ht ⊢
            rw [hasStat_setStat, hasStat_setStat]
            exact hI.regMem t ht
          · exact statLt_setStat _ _ _ _ (statLt_setStat _ _ _ _ hI.statLt)
        · rw [if_neg hlen] at h
          simp only [assign, getReplyRejects, Option.isNone_none, Bool.and_self,
            if_true, Option.some.injEq, Prod.mk.injEq] at h
          obtain ⟨hs, -⟩ := h
          subst hs
          constructor
          · intro a2 ha
            dsimp only at ha
            cases ha
          · intro a2 ha
            dsimp only at ha
            cases ha
          · intro a2 ha
            dsimp only at ha
            cases ha
          · intro tk htk
            dsimp only at htk ⊢
            rw [statusOf_setStat_ne _ _ _ _ (hneTask tk htk)]
            exact hI.taskBusy tk htk
          · exact fun tk htk => hI.taskLt tk htk
          · exact hI.taskNodup
          · intro c2 cmd2 r hl
            dsimp only at hl
            rw [hP] at hl
            cases hl
          · intro c2 cmd2 r hl
            dsimp only at hl
            rw [hP] at hl
            cases hl
          · exact hI.regLt
          · intro t ht
            dsimp only at ht ⊢
            rw [hasStat_setStat]
            exact hI.regMem t ht
          · exact statLt_setStat _ _ _ _ hI.statLt
  · rw [if_neg hP] at h
    cases h

/-- Preservation: every step from an invariant state lands in an invariant
state. -/
theorem inv_step {s s' : St} {e : Ev} {acts : List Act}
    (hI : Inv s) (h : step s e = some (s', acts)) : Inv s' := by
  cases e with
  | connect name => exact inv_connect hI h
  | close c => exact inv_close hI h
  | errorEv c => exact inv_error hI h
  | message c payload => exact inv_message hI h
  | line cmd => exact inv_line hI h

/-- Every reachable state satisfies the invariant. -/
theorem reach_inv {s : St} (h : Reach s) : Inv s := by
  induction h with
  | init => exact inv_init
  | next _ hstep ih => exact inv_step ih hstep

/-- A connection whose status is idle is not being waited on by any task. -/
theorem not_mem_taskConns_of_idle {s : St} (hI : Inv s) {c : Nat}
    (h : statusOf s.stat c = .idle) : c ∉ s.tasks.map (fun tk => tk.t.conn) := by
  intro hc
  simp only [List.mem_map] at hc
  obtain ⟨tk, htk, he⟩ := hc
  have hb := hI.taskBusy tk htk
  rw [he, h] at hb
  cases hb

/-- In an invariant state, no two outstanding waiters share a connection. -/
theorem inv_waitConns_nodup {s : St} (hI : Inv s) : (waitConns s).Nodup := by
  unfold waitConns
  cases hL : s.loop with
  | atPrompt => simpa using hI.taskNodup
  | inlineWaiting c cmd r =>
    simp only [List.singleton_append, List.nodup_cons]
    exact ⟨not_mem_taskConns_of_idle hI (hI.loopIdle _ _ _ hL), hI.taskNodup⟩

/-- Both action disciplines hold for a task's message resumption. -/
theorem taskMsg_actsSound {s s' : St} {c : Nat} {acts : List Act}
    (hI : Inv s) (h : stepTaskMsg s c = some (s', acts)) :
    replayOk (waitConns s) acts = true ∧ registerFollowsSend [] acts = true := by
  simp only [stepTaskMsg] at h
  cases hF : s.tasks.find? (fun tk => tk.t.conn = c) with
  | none =>
    rw [hF] at h
    simp only [Option.some.injEq, Prod.mk.injEq] at h
    obtain ⟨-, hacts⟩ := h
    subst hacts
    exact ⟨rfl, rfl⟩
  | some tk =>
    rw [hF] at h
    dsimp only at h
    have htkMem : tk ∈ s.tasks := List.mem_of_find?_eq_some hF
    have hnd := inv_waitConns_nodup hI
    have hnotmem : c ∉ (waitConns s).erase c := hnd.not_mem_erase
    by_cases hrem : tk.remaining > 0
    · rw [if_pos hrem] at h
      simp only [Option.some.injEq, Prod.mk.injEq] at h
      obtain ⟨-, hacts⟩ := h
      subst hacts
      constructor
      · simp only [replayOk]
        simp [hnotmem]
      · simp [registerFollowsSend]
    · rw [if_neg hrem] at h
      simp only [release, Option.some.injEq, Prod.mk.injEq] at h
      obtain ⟨-, hacts⟩ := h
      subst hacts
      exact ⟨rfl, rfl⟩

/-- Soundness of every synchronous segment's connection actions: each send
happens on a connection with no unresolved waiter, each waiter registration
happens on a connection with no existing waiter (so message-order
correlation is safe), and each registration is preceded in the same segment
by the send it answers. -/
theorem step_actsSound {s s' : St} {e : Ev} {acts : List Act}
    (hI : Inv s) (h : step s e = some (s', acts)) :
    replayOk (waitConns s) acts = true ∧ registerFollowsSend [] acts = true := by
  cases e with
  | connect name =>
    simp only [step, Option.some.injEq, Prod.mk.injEq] at h
    obtain ⟨-, hacts⟩ := h
    subst hacts
    exact ⟨rfl, rfl⟩
  | close c =>
    simp only [step] at h
    cases hF : s.objs.find? (fun t => t.conn = c) with
    | none =>
      rw [hF] at h
      cases h
    | some tobj =>
      rw [hF] at h
      by_cases hC : s.closedConns.contains c = true
      · simp only [hC, if_true] at h
        cases h
      · simp only [hC, if_false, Bool.false_eq_true, Option.some.injEq,
          Prod.mk.injEq] at h
        obtain ⟨-, hacts⟩ := h
        subst hacts
        refine ⟨?_, ?_⟩ <;> (split <;> rfl)
  | errorEv c =>
    simp only [step] at h
    by_cases hC : s.closedConns.contains c = true
    · simp only [hC, if_true] at h
      cases h
    · simp only [hC, if_false, Bool.false_eq_true] at h
      by_cases hW : (waitConns s).contains c = true
      · simp only [hW, if_true, Option.some.injEq, Prod.mk.injEq] at h
        obtain ⟨-, hacts⟩ := h
        subst hacts
        exact ⟨rfl, rfl⟩
      · simp only [hW, if_false, Bool.false_eq_true] at h
        cases h
  | message c payload =>
    simp only [step] at h
    by_cases hG : (s.closedConns.contains c || !(s.objs.any (fun t => t.conn = c))) = true
    · rw [if_pos hG] at h
      cases h
    · rw [if_neg hG] at h
      cases hL : s.loop with
      | atPrompt =>
        rw [hL] at h
        exact taskMsg_actsSound hI h
      | inlineWaiting c' cmd rem =>
        rw [hL] at h
        dsimp only at h
        by_cases hcc : c' = c
        · rw [if_pos hcc] at h
          subst hcc
          by_cases hrem : rem > 0
          · rw [if_pos hrem] at h
            cases hA : s.active with
            | none =>
              rw [hA] at h
              simp only [Option.some.injEq, Prod.mk.injEq] at h
              obtain ⟨-, hacts⟩ := h
              subst hacts
              exact ⟨rfl, rfl⟩
            | some a =>
              rw [hA] at h
              simp only [Option.some.injEq, Prod.mk.injEq] at h
              obtain ⟨-, hacts⟩ := h
              subst hacts
              have hanot : a.conn ∉ s.tasks.map (fun tk => tk.t.conn) :=
                not_mem_taskConns_of_idle hI (hI.activeIdle _ hA)
              constructor
              · simp [waitConns, hL, replayOk, hanot]
              · simp [registerFollowsSend]
          · rw [if_neg hrem] at h
            simp only [Option.some.injEq, Prod.mk.injEq] at h
            obtain ⟨-, hacts⟩ := h
            subst hacts
            exact ⟨rfl, rfl⟩
        · rw [if_neg hcc] at h
          exact taskMsg_actsSound hI h
  | line cmd =>
    simp only [step] at h
    by_cases hP : s.loop = .atPrompt
    · rw [if_pos hP] at h
      have hwc : waitConns s = s.tasks.map (fun tk => tk.t.conn) := by
        simp [waitConns, hP]
      cases cmd with
      | selectT name =>
        simp only [stepLine] at h
        cases hF : findTurtle s.turtles name with
        | none =>
          rw [hF] at h
          simp only [Option.some.injEq, Prod.mk.injEq] at h
          obtain ⟨-, hacts⟩ := h
          subst hacts
          exact ⟨rfl, rfl⟩
        | some t =>
          rw [hF] at h
          dsimp only at h
          by_cases hB : statusOf s.stat t.conn = .busy
          · rw [if_pos hB] at h
            simp only [Option.some.injEq, Prod.mk.injEq] at h
            obtain ⟨-, hacts⟩ := h
            subst hacts
            exact ⟨rfl, rfl⟩
          · rw [if_neg hB] at h
            simp only [Option.some.injEq, Prod.mk.injEq] at h
            obtain ⟨-, hacts⟩ := h
            subst hacts
            exact ⟨rfl, rfl⟩
      | move dir count =>
        cases count with
        | none =>
          simp only [stepLine] at h
          cases hA : s.active with
          | none =>
            rw [hA] at h
            simp only [Option.some.injEq, Prod.mk.injEq] at h
            obtain ⟨-, hacts⟩ := h
            subst hacts
            exact ⟨rfl, rfl⟩
          | some a =>
            rw [hA] at h
            simp only [Option.some.injEq, Prod.mk.injEq] at h
            obtain ⟨-, hacts⟩ := h
            subst hacts
            have hanot : a.conn ∉ s.tasks.map (fun tk => tk.t.conn) :=
              not_mem_taskConns_of_idle hI (hI.activeIdle _ hA)
            constructor
            · simp [hwc, replayOk, hanot]
            · rfl
        | some k =>
          simp only [stepLine] at h
          cases hA : s.active with
          | none =>
            rw [hA] at h
            simp only [Option.some.injEq, Prod.mk.injEq] at h
            obtain ⟨-, hacts⟩ := h
            subst hacts
            exact ⟨rfl, rfl⟩
          | some a =>
            rw [hA] at h
            dsimp only at h
            have hanot : a.conn ∉ s.tasks.map (fun tk => tk.t.conn) :=
              not_mem_taskConns_of_idle hI (hI.activeIdle _ hA)
            by_cases hk : k > 10
            · rw [if_pos hk] at h
              simp only [Option.some.injEq, Prod.mk.injEq] at h
              obtain ⟨-, hacts⟩ := h
              subst hacts
              constructor
              · simp [hwc, replayOk, hanot]
              · simp [registerFollowsSend]
            · rw [if_neg hk] at h
              by_cases hk1 : k ≥ 1
              · rw [if_pos hk1] at h
                simp only [Option.some.injEq, Prod.mk.injEq] at h
                obtain ⟨-, hacts⟩ := h
                subst hacts
                constructor
                · simp [hwc, replayOk, hanot]
                · simp [registerFollowsSend]
              · rw [if_neg hk1] at h
                simp only [Option.some.injEq, Prod.mk.injEq] at h
                obtain ⟨-, hacts⟩ := h
                subst hacts
                exact ⟨rfl, rfl⟩
      | prospect len res =>
        simp only [stepLine] at h
        cases hA : s.active with
        | none =>
          rw [hA] at h
          simp only [Option.some.injEq, Prod.mk.injEq] at h
          obtain ⟨-, hacts⟩ := h
          subst hacts
          exact ⟨rfl, rfl⟩
        | some a =>
          rw [hA] at h
          dsimp only at h
          have hanot : a.conn ∉ s.tasks.map (fun tk => tk.t.conn) :=
            not_mem_taskConns_of_idle hI (hI.activeIdle _ hA)
          by_cases hlen : len ≤ 0
          · rw [if_pos hlen] at h
            simp only [Option.some.injEq, Prod.mk.injEq] at h
            obtain ⟨-, hacts⟩ := h
            subst hacts
            exact ⟨rfl, rfl⟩
          · rw [if_neg hlen] at h
            simp only [assign, getReplyRejects, Option.isNone_none, Bool.and_self,
              if_true, Option.some.injEq, Prod.mk.injEq] at h
            obtain ⟨-, hacts⟩ := h
            subst hacts
            constructor
            · simp [hwc, replayOk, hanot]
            · rfl
    · rw [if_neg hP] at h
      cases h

/-- A state reached by running a concrete event trace from `init` is
reachable. -/
theorem reach_of_runTrace (evs : List Ev) (s : St) (h : runTrace init evs = some s) :
    Reach s := by
  suffices haux : ∀ (l : List Ev) (s0 s1 : St), Reach s0 → runTrace s0 l = some s1 → Reach s1 by
    exact haux evs init s Reach.init h
  intro l
  induction l with
  | nil =>
    intro s0 s1 h0 h1
    simp only [runTrace, Option.some.injEq] at h1
    subst h1
    exact h0
  | cons e r ih =>
    intro s0 s1 h0 h1
    simp only [runTrace] at h1
    cases hst : step s0 e with
    | none =>
      rw [hst] at h1
      cases h1
    | some p =>
      rw [hst] at h1
      exact ih p.1 s1 (Reach.next h0 (by rw [hst])) h1

/-- What a final reply (task with no iterations left) does: the step is
exactly `release(t)` — the status heap write, the conditional promotion of
the freed turtle into `active`, and removal of the finished task. -/
theorem final_message_eq {s s' : St} {tk : Task} {m : String} {acts : List Act}
    (hI : Inv s) (htk : tk ∈ s.tasks) (hrem : tk.remaining = 0)
    (hstep : step s (.message tk.t.conn m) = some (s', acts)) :
    s'.stat = setStat s.stat tk.t.conn .idle ∧
    s'.active = (match s.active with | none => some tk.t | some a => some a) ∧
    s'.tasks = s.tasks.filter (fun tk' => !(tk'.t.conn = tk.t.conn)) ∧
    acts = [.resolve tk.t.conn] := by
  have hbusy : statusOf s.stat tk.t.conn = .busy := hI.taskBusy tk htk
  have hTaskStep : stepTaskMsg s tk.t.conn = some (s', acts) →
      s'.stat = setStat s.stat tk.t.conn .idle ∧
      s'.active = (match s.active with | none => some tk.t | some a => some a) ∧
      s'.tasks = s.tasks.filter (fun tk' => !(tk'.t.conn = tk.t.conn)) ∧
      acts = [.resolve tk.t.conn] := by
    intro h
    simp only [stepTaskMsg] at h
    have hsome : (s.tasks.find? (fun tk' => tk'.t.conn = tk.t.conn)).isSome :=
      List.find?_isSome.mpr ⟨tk, htk, by simp⟩
    cases hF : s.tasks.find? (fun tk' => tk'.t.conn = tk.t.conn) with
    | none =>
      rw [hF] at hsome
      cases hsome
    | some tk0 =>
      rw [hF] at h
      dsimp only at h
      have htk0Mem : tk0 ∈ s.tasks := List.mem_of_find?_eq_some hF
      have htk0Conn : tk0.t.conn = tk.t.conn := by
        simpa using List.find?_some hF
      have htk0 : tk0 = tk :=
        List.inj_on_of_nodup_map hI.taskNodup htk0Mem htk htk0Conn
      subst htk0
      rw [if_neg (by omega)] at h
      simp only [release, Option.some.injEq, Prod.mk.injEq] at h
      obtain ⟨hs, hacts⟩ := h
      subst hs
      subst hacts
      exact ⟨rfl, rfl, rfl, rfl⟩
  simp only [step] at hstep
  by_cases hG : (s.closedConns.contains tk.t.conn ||
      !(s.objs.any (fun t => t.conn = tk.t.conn))) = true
  · rw [if_pos hG] at hstep
    cases hstep
  · rw [if_neg hG] at hstep
    cases hL : s.loop with
    | atPrompt =>
      rw [hL] at hstep
      exact hTaskStep hstep
    | inlineWaiting c' cmd rem =>
      rw [hL] at hstep
      dsimp only at hstep
      have hcc : c' ≠ tk.t.conn := by
        intro he
        have hidle := hI.loopIdle _ _ _ hL
        rw [he, hbusy] at hidle
        cases hidle
      rw [if_neg hcc] at hstep
      exact hTaskStep hstep

/-! ### Lemmas about one `getReply` wait -/

theorem grFire_dead (r : Option GROutcome) (k : Nat) (e : GREvent) :
    grFire ⟨false, false, false, r, k⟩ e = ⟨false, false, false, r, k⟩ := by
  cases e <;> rfl

theorem grRun_dead (r : Option GROutcome) (k : Nat) (es : List GREvent) :
    grRun ⟨false, false, false, r, k⟩ es = ⟨false, false, false, r, k⟩ := by
  induction es with
  | nil => rfl
  | cons e rest ih =>
    have h1 : grRun ⟨false, false, false, r, k⟩ (e :: rest) =
        grRun (grFire ⟨false, false, false, r, k⟩ e) rest := rfl
    rw [h1, grFire_dead]
    exact ih

/-! ### Claim theorems -/

/-- C2: for every `getReply` wait, whichever of the three websocket events
(message, error, close) arrives first is the one that settles the promise
(with the corresponding outcome), exactly one of the three callbacks ever
runs, and after it runs all three listeners are unregistered, so any number
of later message/error/close events fire no sibling callback and leave the
settled result unchanged. -/
theorem getReply_one_shot (e : GREvent) (es : List GREvent) :
    grRun grInit (e :: es) = ⟨false, false, false, some (grOutcome e), 1⟩ := by
  have h0 : grRun grInit (e :: es) = grRun (grFire grInit e) es := rfl
  have h1 : grFire grInit e = ⟨false, false, false, some (grOutcome e), 1⟩ := by
    cases e <;> rfl
  rw [h0, h1]
  exact grRun_dead _ _ es

/-- C1: in any reachable state, the outstanding `getReply` waiters sit on
pairwise distinct connections (at most one outstanding wait per agent), and
whatever event occurs next, the synchronous segment it triggers never sends
a request on a connection that still has an unresolved waiter, never
registers a second waiter on a connection with one outstanding, and leaves
the waiters again pairwise distinct.  This holds across all interleavings of
the interactive loop and any number of detached tasks, because `Reach`
quantifies over all event interleavings. -/
theorem at_most_one_wait_per_conn (s s' : St) (e : Ev) (acts : List Act)
    (hR : Reach s) (h : step s e = some (s', acts)) :
    (waitConns s).Nodup ∧ replayOk (waitConns s) acts = true ∧
      (waitConns s').Nodup :=
  ⟨inv_waitConns_nodup (reach_inv hR), (step_actsSound (reach_inv hR) h).1,
    inv_waitConns_nodup (inv_step (reach_inv hR) h)⟩

/-- Witness for C1: concrete run — agent `a` connects, the operator issues
`forward 11`, which detaches a background task; its first segment sends and
registers on connection 0 while no waiter was pending. -/
theorem at_most_one_wait_per_conn_witness :
    (waitConns ⟨[⟨0, "a"⟩], [⟨0, "a"⟩], [(0, .idle)], some ⟨0, "a"⟩, [],
        .atPrompt, [], 1⟩).Nodup ∧
    replayOk (waitConns ⟨[⟨0, "a"⟩], [⟨0, "a"⟩], [(0, .idle)], some ⟨0, "a"⟩, [],
        .atPrompt, [], 1⟩)
      [.send 0 "turtle.forward()", .register 0] = true ∧
    (waitConns ⟨[⟨0, "a"⟩], [⟨0, "a"⟩], [(0, .busy)], none,
        [⟨⟨0, "a"⟩, 10, "turtle.forward()"⟩], .atPrompt, [], 1⟩).Nodup :=
  at_most_one_wait_per_conn
    ⟨[⟨0, "a"⟩], [⟨0, "a"⟩], [(0, .idle)], some ⟨0, "a"⟩, [], .atPrompt, [], 1⟩
    ⟨[⟨0, "a"⟩], [⟨0, "a"⟩], [(0, .busy)], none,
      [⟨⟨0, "a"⟩, 10, "turtle.forward()"⟩], .atPrompt, [], 1⟩
    (.line (.move .fwd (some 11)))
    [.send 0 "turtle.forward()", .register 0]
    (reach_of_runTrace [.connect "a"] _ (by decide))
    (by decide)

/-- C9: in every reachable state, if some agent is currently selected then
that agent's status is `Idle` — every write to `active` installs an idle
agent, and `assign` (the only transition to `Busy`) clears the selection in
the same synchronous segment, so interactive commands never target a busy
agent. -/
theorem active_is_idle (s : St) (a : TObj) (hR : Reach s)
    (hA : s.active = some a) : statusOf s.stat a.conn = .idle :=
  (reach_inv hR).activeIdle a hA

/-- Witness for C9: after `a` and `b` connect, `a` is the selection and is
idle. -/
theorem active_is_idle_witness :
    statusOf [(1, TurtleStatus.idle), (0, TurtleStatus.idle)] 0 = .idle :=
  active_is_idle
    ⟨[⟨0, "a"⟩, ⟨1, "b"⟩], [⟨0, "a"⟩, ⟨1, "b"⟩],
      [(1, .idle), (0, .idle)], some ⟨0, "a"⟩, [], .atPrompt, [], 2⟩
    ⟨0, "a"⟩
    (reach_of_runTrace [.connect "a", .connect "b"] _ (by decide))
    (by decide)

/-- C3 counterexample: agent `a` connects and the operator issues
`prospect 1 ore`.  In the reached state agent `a` (connection 0) is `Busy`,
yet no task run is in progress against it (no suspended task, loop at the
prompt, no outstanding waiter): the run aborted — `getReply()` was called
with no turtle argument right after `assign()` cleared the selection, so the
wait rejected and `release(t)` was never reached — and the abort exit path
did not transition the status back to `Idle`, refuting both directions of
the claim. -/
theorem busy_without_task_counterexample :
    (runTrace init [.connect "a", .line (.prospect 1 "ore")]).map
        (fun s => (statusOf s.stat 0, s.tasks, s.loop, waitConns s)) =
      some (.busy, [], .atPrompt, []) := by
  decide

/-- C3 amended: if a task run is in progress against an agent then the agent
is `Busy`, and on normal completion of the run (the reply to its final step)
the status transitions back to `Idle`; abort paths (transport error or
close, or `prospect`'s immediately-rejected reply wait) do not run `release`
and leave the agent `Busy`. -/
theorem task_busy_and_release (s : St) (hR : Reach s) :
    (∀ tk, tk ∈ s.tasks → statusOf s.stat tk.t.conn = .busy) ∧
    (∀ tk s' acts m, tk ∈ s.tasks → tk.remaining = 0 →
      step s (.message tk.t.conn m) = some (s', acts) →
      statusOf s'.stat tk.t.conn = .idle) := by
  have hI := reach_inv hR
  refine ⟨fun tk htk => hI.taskBusy tk htk, ?_⟩
  intro tk s' acts m htk hrem hstep
  obtain ⟨hstat, -, -, -⟩ := final_message_eq hI htk hrem hstep
  rw [hstat]
  exact statusOf_setStat_self _ _ _ (hasStat_of_busy _ _ (hI.taskBusy tk htk))

/-- Witness for C3: agent `a` runs `forward 11` as a detached task; after
ten replies the task is at its final await; the task is busy, and the
eleventh reply releases it to idle. -/
theorem task_busy_and_release_witness :
    (∀ tk, tk ∈ [(⟨⟨0, "a"⟩, 0, "turtle.forward()"⟩ : Task)] →
      statusOf [(0, TurtleStatus.busy)] tk.t.conn = .busy) ∧
    (∀ tk s' acts m, tk ∈ [(⟨⟨0, "a"⟩, 0, "turtle.forward()"⟩ : Task)] →
      tk.remaining = 0 →
      step ⟨[⟨0, "a"⟩], [⟨0, "a"⟩], [(0, .busy)], none,
          [⟨⟨0, "a"⟩, 0, "turtle.forward()"⟩], .atPrompt, [], 1⟩
        (.message tk.t.conn m) = some (s', acts) →
      statusOf s'.stat tk.t.conn = .idle) :=
  task_busy_and_release
    ⟨[⟨0, "a"⟩], [⟨0, "a"⟩], [(0, .busy)], none,
      [⟨⟨0, "a"⟩, 0, "turtle.forward()"⟩], .atPrompt, [], 1⟩
    (reach_of_runTrace
      [.connect "a", .line (.move .fwd (some 11)),
        .message 0 "ok", .message 0 "ok", .message 0 "ok", .message 0 "ok",
        .message 0 "ok", .message 0 "ok", .message 0 "ok", .message 0 "ok",
        .message 0 "ok", .message 0 "ok"]
      _ (by decide))

/-- C5: whenever a task run delivers its final reply (the run finishes and
`release` executes), if no agent is currently selected the freed agent is
auto-promoted into the selection, and if some other agent is selected the
selection is left unchanged. -/
theorem release_promotes (s s' : St) (tk : Task) (m : String) (acts : List Act)
    (hR : Reach s) (htk : tk ∈ s.tasks) (hrem : tk.remaining = 0)
    (hstep : step s (.message tk.t.conn m) = some (s', acts)) :
    (s.active = none → s'.active = some tk.t) ∧
    (∀ b, s.active = some b → s'.active = some b) := by
  obtain ⟨-, hact, -, -⟩ := final_message_eq (reach_inv hR) htk hrem hstep
  constructor
  · intro hA
    rw [hact, hA]
  · intro b hA
    rw [hact, hA]

/-- Witness for C5: agent `b` finishes a `back 11` task while no agent is
selected; the final reply promotes `b` into the selection. -/
theorem release_promotes_witness :
    ((⟨[⟨0, "b"⟩], [⟨0, "b"⟩], [(0, .busy)], none,
        [⟨⟨0, "b"⟩, 0, "turtle.back()"⟩], .atPrompt, [], 1⟩ : St).active = none →
      (⟨[⟨0, "b"⟩], [⟨0, "b"⟩], [(0, .idle)], some ⟨0, "b"⟩, [],
        .atPrompt, [], 1⟩ : St).active = some ⟨0, "b"⟩) ∧
    (∀ b, (⟨[⟨0, "b"⟩], [⟨0, "b"⟩], [(0, .busy)], none,
        [⟨⟨0, "b"⟩, 0, "turtle.back()"⟩], .atPrompt, [], 1⟩ : St).active = some b →
      (⟨[⟨0, "b"⟩], [⟨0, "b"⟩], [(0, .idle)], some ⟨0, "b"⟩, [],
        .atPrompt, [], 1⟩ : St).active = some b) :=
  release_promotes
    ⟨[⟨0, "b"⟩], [⟨0, "b"⟩], [(0, .busy)], none,
      [⟨⟨0, "b"⟩, 0, "turtle.back()"⟩], .atPrompt, [], 1⟩
    ⟨[⟨0, "b"⟩], [⟨0, "b"⟩], [(0, .idle)], some ⟨0, "b"⟩, [], .atPrompt, [], 1⟩
    ⟨⟨0, "b"⟩, 0, "turtle.back()"⟩
    "done" [.resolve 0]
    (reach_of_runTrace
      [.connect "b", .line (.move .back (some 11)),
        .message 0 "ok", .message 0 "ok", .message 0 "ok", .message 0 "ok",
        .message 0 "ok", .message 0 "ok", .message 0 "ok", .message 0 "ok",
        .message 0 "ok", .message 0 "ok"]
      _ (by decide))
    (by decide) (by decide) (by decide)

/-- C6: `select name` at the prompt: when no connected agent has the name,
the command fails (the "no such turtle" report) and the selection is
unchanged; when the named agent is busy, the command fails (the "turtle is
busy" report) and the selection is unchanged; otherwise the named agent
becomes the selection. -/
theorem select_spec (s s' : St) (name : String) (acts : List Act)
    (hP : s.loop = .atPrompt)
    (hstep : step s (.line (.selectT name)) = some (s', acts)) :
    (findTurtle s.turtles name = none → s'.active = s.active) ∧
    (∀ t, findTurtle s.turtles name = some t →
      statusOf s.stat t.conn = .busy → s'.active = s.active) ∧
    (∀ t, findTurtle s.turtles name = some t →
      statusOf s.stat t.conn ≠ .busy → s'.active = some t) := by
  simp only [step] at hstep
  rw [if_pos hP] at hstep
  simp only [stepLine] at hstep
  cases hF : findTurtle s.turtles name with
  | none =>
    rw [hF] at hstep
    simp only [Option.some.injEq, Prod.mk.injEq] at hstep
    obtain ⟨hs, -⟩ := hstep
    subst hs
    refine ⟨?_, ?_, ?_⟩
    · intro _
      rfl
    · intro t ht
      cases ht
    · intro t ht
      cases ht
  | some t0 =>
    rw [hF] at hstep
    dsimp only at hstep
    by_cases hB : statusOf s.stat t0.conn = .busy
    · rw [if_pos hB] at hstep
      simp only [Option.some.injEq, Prod.mk.injEq] at hstep
      obtain ⟨hs, -⟩ := hstep
      subst hs
      refine ⟨?_, ?_, ?_⟩
      · intro h
        cases h
      · intro t ht _
        rfl
      · intro t ht hnb
        cases ht
        exact absurd hB hnb
    · rw [if_neg hB] at hstep
      simp only [Option.some.injEq, Prod.mk.injEq] at hstep
      obtain ⟨hs, -⟩ := hstep
      subst hs
      refine ⟨?_, ?_, ?_⟩
      · intro h
        cases h
      · intro t ht hb
        cases ht
        exact absurd hb hB
      · intro t ht _
        cases ht
        rfl

/-- Witness for C6: with idle `a` selected and idle `b` connected,
`select b` makes `b` the selection. -/
theorem select_spec_witness :
    (findTurtle [⟨0, "a"⟩, ⟨1, "b"⟩] "b" = none →
      (⟨[⟨0, "a"⟩, ⟨1, "b"⟩], [⟨0, "a"⟩, ⟨1, "b"⟩], [(1, .idle), (0, .idle)],
        some ⟨1, "b"⟩, [], .atPrompt, [], 2⟩ : St).active =
      (⟨[⟨0, "a"⟩, ⟨1, "b"⟩], [⟨0, "a"⟩, ⟨1, "b"⟩], [(1, .idle), (0, .idle)],
        some ⟨0, "a"⟩, [], .atPrompt, [], 2⟩ : St).active) ∧
    (∀ t, findTurtle [⟨0, "a"⟩, ⟨1, "b"⟩] "b" = some t →
      statusOf [(1, TurtleStatus.idle), (0, TurtleStatus.idle)] t.conn = .busy →
      (⟨[⟨0, "a"⟩, ⟨1, "b"⟩], [⟨0, "a"⟩, ⟨1, "b"⟩], [(1, .idle), (0, .idle)],
        some ⟨1, "b"⟩, [], .atPrompt, [], 2⟩ : St).active =
      (⟨[⟨0, "a"⟩, ⟨1, "b"⟩], [⟨0, "a"⟩, ⟨1, "b"⟩], [(1, .idle), (0, .idle)],
        some ⟨0, "a"⟩, [], .atPrompt, [], 2⟩ : St).active) ∧
    (∀ t, findTurtle [⟨0, "a"⟩, ⟨1, "b"⟩] "b" = some t →
      statusOf [(1, TurtleStatus.idle), (0, TurtleStatus.idle)] t.conn ≠ .busy →
      (⟨[⟨0, "a"⟩, ⟨1, "b"⟩], [⟨0, "a"⟩, ⟨1, "b"⟩], [(1, .idle), (0, .idle)],
        some ⟨1, "b"⟩, [], .atPrompt, [], 2⟩ : St).active = some t) :=
  select_spec
    ⟨[⟨0, "a"⟩, ⟨1, "b"⟩], [⟨0, "a"⟩, ⟨1, "b"⟩], [(1, .idle), (0, .idle)],
      some ⟨0, "a"⟩, [], .atPrompt, [], 2⟩
    ⟨[⟨0, "a"⟩, ⟨1, "b"⟩], [⟨0, "a"⟩, ⟨1, "b"⟩], [(1, .idle), (0, .idle)],
      some ⟨1, "b"⟩, [], .atPrompt, [], 2⟩
    "b" []
    (by decide) (by decide)

/-- C7 counterexample: the first segment of a `forward 11` task performs, in
program order, first the `send` of the payload on connection 0 and only then
the registration of the reply waiter (`repeat` runs `t.ws.send(command)`
before `await getReply(t)` registers the listeners); replaying these actions
against the spec's discipline — every send must find its waiter already
registered — fails, refuting the claimed register-before-send order. -/
theorem send_before_register_counterexample :
    runTrace init [.connect "a"] =
      some ⟨[⟨0, "a"⟩], [⟨0, "a"⟩], [(0, .idle)], some ⟨0, "a"⟩, [],
        .atPrompt, [], 1⟩ ∧
    (step ⟨[⟨0, "a"⟩], [⟨0, "a"⟩], [(0, .idle)], some ⟨0, "a"⟩, [],
        .atPrompt, [], 1⟩ (.line (.move .fwd (some 11)))).map Prod.snd =
      some [.send 0 "turtle.forward()", .register 0] ∧
    sendAfterRegister
      (waitConns ⟨[⟨0, "a"⟩], [⟨0, "a"⟩], [(0, .idle)], some ⟨0, "a"⟩, [],
        .atPrompt, [], 1⟩)
      [.send 0 "turtle.forward()", .register 0] = false := by
  decide

/-- C7 amended: for every correlated request the payload is sent first and
the reply waiter is registered immediately afterwards, within the same
synchronous segment of the event loop — no websocket event can be processed
between the send and the registration, so the waiter still observes the next
inbound event for that request. -/
theorem send_precedes_register (s s' : St) (e : Ev) (acts : List Act)
    (hR : Reach s) (h : step s e = some (s', acts)) :
    registerFollowsSend [] acts = true :=
  (step_actsSound (reach_inv hR) h).2

/-- Witness for C7: the first segment of a `back 12` task on agent `c`. -/
theorem send_precedes_register_witness :
    registerFollowsSend [] [.send 0 "turtle.back()", .register 0] = true :=
  send_precedes_register
    ⟨[⟨0, "c"⟩], [⟨0, "c"⟩], [(0, .idle)], some ⟨0, "c"⟩, [], .atPrompt, [], 1⟩
    ⟨[⟨0, "c"⟩], [⟨0, "c"⟩], [(0, .busy)], none,
      [⟨⟨0, "c"⟩, 11, "turtle.back()"⟩], .atPrompt, [], 1⟩
    (.line (.move .back (some 12)))
    [.send 0 "turtle.back()", .register 0]
    (reach_of_runTrace [.connect "c"] _ (by decide))
    (by decide)

/-- C8 counterexample: two agents register under the name `x` (connections 0
and 1).  The registry keeps both entries, but a lookup of `x` — the
`turtles.find` used by `select` — yields the agent on connection 0, the
*earliest* registration, not the most recent one (connection 1): `find`
returns the first match in array order, so the last registration does not
win. -/
theorem duplicate_name_lookup_counterexample :
    (runTrace init [.connect "x", .connect "x"]).map
        (fun s => (s.turtles, findTurtle s.turtles "x")) =
      some ([⟨0, "x"⟩, ⟨1, "x"⟩], some ⟨0, "x"⟩) ∧
    (⟨0, "x"⟩ : TObj) ≠ ⟨1, "x"⟩ := by
  decide

/-- C8 amended: when a second agent registers under a name already present,
the registry appends the new entry and does not merge the two, and a
subsequent lookup of that name yields the *earliest* still-registered agent
with that name; the new registration is only found once no earlier entry
with the name remains. -/
theorem connect_appends_lookup_first (s s' : St) (n : String) (acts : List Act)
    (hstep : step s (.connect n) = some (s', acts)) :
    s'.turtles = s.turtles ++ [⟨s.nextConn, n⟩] ∧
    findTurtle s'.turtles n =
      (match findTurtle s.turtles n with
       | some t => some t
       | none => some ⟨s.nextConn, n⟩) := by
  simp only [step, Option.some.injEq, Prod.mk.injEq] at hstep
  obtain ⟨hs, -⟩ := hstep
  subst hs
  refine ⟨rfl, ?_⟩
  show findTurtle (s.turtles ++ [⟨s.nextConn, n⟩]) n = _
  unfold findTurtle
  rw [List.find?_append]
  cases hF : s.turtles.find? (fun t => t.name = n) with
  | some t => rfl
  | none => simp

/-- Witness for C8: the second registration of `x` appends and the lookup
still returns the first. -/
theorem connect_appends_lookup_first_witness :
    (⟨[⟨0, "x"⟩, ⟨1, "x"⟩], [⟨0, "x"⟩, ⟨1, "x"⟩], [(1, .idle), (0, .idle)],
        some ⟨0, "x"⟩, [], .atPrompt, [], 2⟩ : St).turtles =
      [⟨0, "x"⟩] ++ [⟨1, "x"⟩] ∧
    findTurtle (⟨[⟨0, "x"⟩, ⟨1, "x"⟩], [⟨0, "x"⟩, ⟨1, "x"⟩],
        [(1, .idle), (0, .idle)], some ⟨0, "x"⟩, [], .atPrompt, [], 2⟩ : St).turtles
        "x" =
      (match findTurtle [⟨0, "x"⟩] "x" with
       | some t => some t
       | none => some ⟨1, "x"⟩) :=
  connect_appends_lookup_first
    ⟨[⟨0, "x"⟩], [⟨0, "x"⟩], [(0, .idle)], some ⟨0, "x"⟩, [], .atPrompt, [], 1⟩
    ⟨[⟨0, "x"⟩, ⟨1, "x"⟩], [⟨0, "x"⟩, ⟨1, "x"⟩], [(1, .idle), (0, .idle)],
      some ⟨0, "x"⟩, [], .atPrompt, [], 2⟩
    "x" []
    (by decide)

/-- C4: `prospect` never behaves as a bounded search awaiting its agent's
replies.  With agent `a` connected and selected, `prospect 3 ore` sends two
payloads on connection 0 but registers no reply waiter (the step's actions
are exactly two sends): `assign()` clears the selection and the task then
calls `getReply()` with no turtle argument, which rejects immediately with
"no selected turtle"; the rejection escapes the un-caught async IIFE, so the
stop condition is never evaluated, `release` never runs, the agent stays
`Busy`, and the replies "stone", "ore vein", "dirt" are dropped without
effect instead of stopping the task at "ore vein". -/
theorem prospect_never_awaits_replies :
    (runTrace init [.connect "a"]).bind
        (fun s => (step s (.line (.prospect 3 "ore"))).map Prod.snd) =
      some [.send 0 prospectDigCmd, .send 0 prospectLeftCmd] ∧
    (runTrace init [.connect "a", .line (.prospect 3 "ore")]).map
        (fun s => (statusOf s.stat 0, s.tasks, waitConns s, s.active)) =
      some (.busy, [], [], none) ∧
    runTrace init [.connect "a", .line (.prospect 3 "ore"), .message 0 "stone",
        .message 0 "ore vein", .message 0 "dirt"] =
      runTrace init [.connect "a", .line (.prospect 3 "ore")] := by
  refine ⟨by decide, by decide, by decide⟩

/-- C10: a counted movement command against the selected agent dispatches on
the count: with `1 ≤ count ≤ 10` it runs inline — the agent stays idle and
stays selected, the loop suspends at the inline reply wait, no task is
detached, and no further operator command can be processed in the suspended
state (the loop blocks); with `count > 10` it detaches a `repeat` task —
the agent is marked busy, the selection is cleared and the loop is back at
the prompt before the next command; with `count ≤ 0` the loop body runs
zero times and nothing changes. -/
theorem movement_dispatch (s s' : St) (a : TObj) (dir : MoveDir) (k : Int)
    (acts : List Act) (hR : Reach s) (hP : s.loop = .atPrompt)
    (hA : s.active = some a)
    (hstep : step s (.line (.move dir (some k))) = some (s', acts)) :
    (1 ≤ k → k ≤ 10 →
      s'.active = some a ∧ statusOf s'.stat a.conn = .idle ∧
      s'.loop = .inlineWaiting a.conn (moveCmd dir) (k - 1).toNat ∧
      s'.tasks = s.tasks ∧ (∀ c2, step s' (.line c2) = none)) ∧
    (10 < k →
      s'.active = none ∧ statusOf s'.stat a.conn = .busy ∧
      s'.loop = .atPrompt ∧
      s'.tasks = s.tasks ++ [⟨a, (k - 1).toNat, moveCmd dir⟩]) ∧
    (k ≤ 0 → s' = s ∧ acts = []) := by
  have hI := reach_inv hR
  simp only [step] at hstep
  rw [if_pos hP] at hstep
  simp only [stepLine] at hstep
  rw [hA] at hstep
  dsimp only at hstep
  by_cases hk : k > 10
  · rw [if_pos hk] at hstep
    simp only [assign, Option.some.injEq, Prod.mk.injEq] at hstep
    obtain ⟨hs, -⟩ := hstep
    subst hs
    refine ⟨?_, ?_, ?_⟩
    · intro h1 h10
      omega
    · intro _
      refine ⟨rfl, ?_, hP, rfl⟩
      exact statusOf_setStat_self _ _ _ (hI.activeMem _ hA)
    · intro h0
      omega
  · rw [if_neg hk] at hstep
    by_cases hk1 : k ≥ 1
    · rw [if_pos hk1] at hstep
      simp only [Option.some.injEq, Prod.mk.injEq] at hstep
      obtain ⟨hs, -⟩ := hstep
      subst hs
      refine ⟨?_, ?_, ?_⟩
      · intro _ _
        refine ⟨rfl, hI.activeIdle _ hA, rfl, rfl, ?_⟩
        intro c2
        simp [step]
      · intro h10
        omega
      · intro h0
        omega
    · rw [if_neg hk1] at hstep
      simp only [Option.some.injEq, Prod.mk.injEq] at hstep
      obtain ⟨hs, hacts⟩ := hstep
      subst hs
      refine ⟨?_, ?_, ?_⟩
      · intro h1 _
        omega
      · intro h10
        omega
      · intro _
        exact ⟨rfl, hacts.symm⟩

/-- Witness for C10: `forward 3` against selected idle agent `d` runs
inline. -/
theorem movement_dispatch_witness :
    (1 ≤ (3 : Int) → (3 : Int) ≤ 10 →
      (⟨[⟨0, "d"⟩], [⟨0, "d"⟩], [(0, .idle)], some ⟨0, "d"⟩, [],
        .inlineWaiting 0 "turtle.forward()" 2, [], 1⟩ : St).active = some ⟨0, "d"⟩ ∧
      statusOf (⟨[⟨0, "d"⟩], [⟨0, "d"⟩], [(0, .idle)], some ⟨0, "d"⟩, [],
        .inlineWaiting 0 "turtle.forward()" 2, [], 1⟩ : St).stat 0 = .idle ∧
      (⟨[⟨0, "d"⟩], [⟨0, "d"⟩], [(0, .idle)], some ⟨0, "d"⟩, [],
        .inlineWaiting 0 "turtle.forward()" 2, [], 1⟩ : St).loop =
        .inlineWaiting 0 (moveCmd .fwd) ((3 : Int) - 1).toNat ∧
      (⟨[⟨0, "d"⟩], [⟨0, "d"⟩], [(0, .idle)], some ⟨0, "d"⟩, [],
        .inlineWaiting 0 "turtle.forward()" 2, [], 1⟩ : St).tasks = [] ∧
      (∀ c2, step (⟨[⟨0, "d"⟩], [⟨0, "d"⟩], [(0, .idle)], some ⟨0, "d"⟩, [],
        .inlineWaiting 0 "turtle.forward()" 2, [], 1⟩ : St) (.line c2) = none)) ∧
    ((10 : Int) < 3 →
      (⟨[⟨0, "d"⟩], [⟨0, "d"⟩], [(0, .idle)], some ⟨0, "d"⟩, [],
        .inlineWaiting 0 "turtle.forward()" 2, [], 1⟩ : St).active = none ∧
      statusOf (⟨[⟨0, "d"⟩], [⟨0, "d"⟩], [(0, .idle)], some ⟨0, "d"⟩, [],
        .inlineWaiting 0 "turtle.forward()" 2, [], 1⟩ : St).stat 0 = .busy ∧
      (⟨[⟨0, "d"⟩], [⟨0, "d"⟩], [(0, .idle)], some ⟨0, "d"⟩, [],
        .inlineWaiting 0 "turtle.forward()" 2, [], 1⟩ : St).loop = .atPrompt ∧
      (⟨[⟨0, "d"⟩], [⟨0, "d"⟩], [(0, .idle)], some ⟨0, "d"⟩, [],
        .inlineWaiting 0 "turtle.forward()" 2, [], 1⟩ : St).tasks =
        [] ++ [⟨⟨0, "d"⟩, ((3 : Int) - 1).toNat, moveCmd .fwd⟩]) ∧
    ((3 : Int) ≤ 0 →
      (⟨[⟨0, "d"⟩], [⟨0, "d"⟩], [(0, .idle)], some ⟨0, "d"⟩, [],
        .inlineWaiting 0 "turtle.forward()" 2, [], 1⟩ : St) =
        ⟨[⟨0, "d"⟩], [⟨0, "d"⟩], [(0, .idle)], some ⟨0, "d"⟩, [],
          .atPrompt, [], 1⟩ ∧
      [Act.send 0 "turtle.forward()", Act.register 0] = []) :=
  movement_dispatch
    ⟨[⟨0, "d"⟩], [⟨0, "d"⟩], [(0, .idle)], some ⟨0, "d"⟩, [], .atPrompt, [], 1⟩
    ⟨[⟨0, "d"⟩], [⟨0, "d"⟩], [(0, .idle)], some ⟨0, "d"⟩, [],
      .inlineWaiting 0 "turtle.forward()" 2, [], 1⟩
    ⟨0, "d"⟩ .fwd 3
    [.send 0 "turtle.forward()", .register 0]
    (reach_of_runTrace [.connect "d"] _ (by decide))
    (by decide) (by decide) (by decide)

end MRC2
